import Mathlib

/-!
Shallow embedding of the translation-and-quality-assessment core of the
English–Igala translation API (`src/model.py`), together with theorems
settling the specification claims.

Modelling conventions:
* Python strings are `List Char` (`Str` below); `str.lower()` is `Char.toLower`
  mapped over the list (ASCII lowering, as in the source's usage), `str.strip()`
  is `trim`, and `str.split()` (no argument) is `pysplit`, which splits on runs
  of whitespace and produces no empty tokens.
* Python floats are modelled as exact rationals `ℚ`; `round(x, 2)` is `round2`,
  implemented with round-half-to-even (`pyround`) like Python's `round`.
* Python dicts are association lists with unique keys (`Dict`); insertion
  overwrites in place, preserving first-insertion order, as CPython dicts do.
* Python sets are `Finset`; `list(s)` of a set is kept as the `Finset` itself
  (no claim depends on the arbitrary iteration order).
* A Python dict literal that omits a key (as the empty-input branches of
  `back_translate` and `calculate_back_translation_score` do) is modelled by an
  `Option` field that is `none` there; reading a missing key (`KeyError`) is
  modelled with `Except`.
* `timestamp` fields (wall-clock reads) are omitted from the records.
-/

namespace IgalaApi

abbrev Str := List Char

abbrev Dict := List (Str × Str)

/-- Convert a Lean string literal to the `List Char` model of Python strings. -/
def str (s : String) : Str := s.toList

/-- The ASCII whitespace characters recognised by Python's `str.split()` and
`str.strip()`: space, tab, newline, carriage return, vertical tab, form feed. -/
def isSpaceChar (c : Char) : Bool :=
  c.toNat == 32 || c.toNat == 9 || c.toNat == 10 || c.toNat == 13 ||
    c.toNat == 11 || c.toNat == 12

/-- Python `str.lower()` (ASCII range, via `Char.toLower`). -/
def lowerStr (s : Str) : Str := s.map Char.toLower

/-- Python `str.strip()`: remove leading and trailing whitespace. -/
def trim (s : Str) : Str :=
  ((s.dropWhile isSpaceChar).reverse.dropWhile isSpaceChar).reverse

/-- Linear scan implementing Python `str.split()`: `acc` holds the characters
of the token currently being read, in reverse order. -/
def pysplitAux (acc : Str) : Str → List Str
  | [] => if acc = [] then [] else [acc.reverse]
  | c :: cs =>
    if isSpaceChar c then
      (if acc = [] then [] else [acc.reverse]) ++ pysplitAux [] cs
    else pysplitAux (c :: acc) cs

/-- Python `str.split()` with no separator: split on runs of whitespace,
discarding empty tokens. -/
def pysplit (s : Str) : List Str := pysplitAux [] s

/-- Python `' '.join(tokens)`. -/
def joinSpace : List Str → Str
  | [] => []
  | [t] => t
  | t :: u :: ts => t ++ ' ' :: joinSpace (u :: ts)

/-- Python dict lookup `d.get(k)` on the association-list model. -/
def dlookup (d : Dict) (k : Str) : Option Str :=
  (d.find? (fun p => p.1 == k)).map (fun p => p.2)

/-- Python dict assignment `d[k] = v`: overwrite in place if the key is
present (keeping its original position), otherwise append. -/
def dinsert (d : Dict) (k v : Str) : Dict :=
  if d.any (fun p => p.1 == k) then
    d.map (fun p => if p.1 == k then (k, v) else p)
  else d ++ [(k, v)]

/-- The key list of a dict, in insertion order. -/
def dkeys (d : Dict) : List Str := d.map (fun p => p.1)

/-- Python `round` on an exact rational: nearest integer, ties to even. -/
def pyround (q : ℚ) : ℤ :=
  let fl := q.num.fdiv q.den
  let rem2 : ℤ := 2 * (q.num - fl * q.den)
  if rem2 < (q.den : ℤ) then fl
  else if (q.den : ℤ) < rem2 then fl + 1
  else if fl % 2 = 0 then fl else fl + 1

/-- Python `round(q, 2)`. -/
def round2 (q : ℚ) : ℚ := (pyround (q * 100) : ℚ) / 100

/-- The two translation dictionaries of `TranslationModel` (`english_to_igala`,
`igala_to_english`), the only state the core's operations read. -/
structure TranslationModel where
  english_to_igala : Dict
  igala_to_english : Dict
deriving DecidableEq

/-- Dictionary selection used throughout `model.py`:
`self.english_to_igala if direction == 'en_to_ig' else self.igala_to_english`. -/
def pickDict (m : TranslationModel) (direction : Str) : Dict :=
  if direction = str "en_to_ig" then m.english_to_igala else m.igala_to_english

/-- Result shape of `translate_single` (timestamp omitted). -/
structure TranslationResult where
  original : Str
  translated : Str
  confidence : ℚ
  direction : Str
deriving DecidableEq

/-- Result shape of `calculate_back_translation_score`. The Python function
returns a dict that contains the key `overlapping_words` only in the non-empty
branch, hence the `Option`. -/
structure QualityMetrics where
  similarity_score : ℚ
  word_overlap : ℕ
  total_original_words : ℕ
  preservation_rate : ℚ
  overlapping_words : Option (Finset Str)
deriving DecidableEq

/-- Result shape of `_assess_translation_quality`. -/
structure OverallQuality where
  overall_score : ℚ
  quality_level : Str
  quality_description : Str
  recommendations : List Str
deriving DecidableEq

/-- Result shape of `back_translate` (timestamp omitted). The Python dict
returned by the empty-input branch has no `overall_quality` key at all, hence
the `Option` field. -/
structure BackTranslationResult where
  original_text : Str
  forward_translation : Str
  back_translation : Str
  forward_confidence : ℚ
  back_confidence : ℚ
  quality_metrics : QualityMetrics
  overall_quality : Option OverallQuality
  source_direction : Str
deriving DecidableEq

/-- `TranslationModel.calculate_confidence`. -/
def calculate_confidence (m : TranslationModel)
    (text translated_text direction : Str) : ℚ :=
  let words := pysplit (lowerStr text)
  let dictionary := pickDict m direction
  let found_words := words.countP (fun word => (dlookup dictionary word).isSome)
  let total_words := words.length
  if total_words = 0 then 0
  else round2 ((found_words : ℚ) / (total_words : ℚ) * 100)

/-- `TranslationModel.translate_single`. -/
def translate_single (m : TranslationModel) (text direction : Str) :
    TranslationResult :=
  if text = [] ∨ trim text = [] then
    { original := text, translated := [], confidence := 0, direction := direction }
  else
    let dictionary := pickDict m direction
    let words := pysplit (lowerStr text)
    let translated_words := words.map (fun word => (dlookup dictionary word).getD word)
    let translated_text := joinSpace translated_words
    { original := text, translated := translated_text,
      confidence := calculate_confidence m text translated_text direction,
      direction := direction }

/-- `TranslationModel.calculate_back_translation_score`. -/
def calculate_back_translation_score (original back_translated : Str) :
    QualityMetrics :=
  let original_words : Finset Str := (pysplit (lowerStr original)).toFinset
  let back_words : Finset Str := (pysplit (lowerStr back_translated)).toFinset
  if original_words = ∅ then
    { similarity_score := 0, word_overlap := 0, total_original_words := 0,
      preservation_rate := 0, overlapping_words := none }
  else
    let overlap := original_words ∩ back_words
    { similarity_score := round2 ((overlap.card : ℚ) / (original_words.card : ℚ) * 100),
      word_overlap := overlap.card,
      total_original_words := original_words.card,
      preservation_rate := round2 ((overlap.card : ℚ) / (original_words.card : ℚ) * 100),
      overlapping_words := some overlap }

/-- `TranslationModel._get_quality_recommendations`. -/
def get_quality_recommendations (overall forward back similarity : ℚ) : List Str :=
  let recommendations :=
    (if forward < 70 then
      [str "Consider reviewing the forward translation - low dictionary coverage"] else []) ++
    (if back < 70 then
      [str "Back translation has low confidence - may indicate translation issues"] else []) ++
    (if similarity < 50 then
      [str "Low similarity between original and back-translated text - meaning may be lost"] else []) ++
    (if overall < 60 then
      [str "Overall quality is below acceptable threshold - manual review recommended"] else [])
  if recommendations = [] then
    [str "Translation quality is good - no immediate concerns"]
  else recommendations

/-- `TranslationModel._assess_translation_quality`. The quality level and
description are chosen from the unrounded weighted score; only the reported
`overall_score` is rounded. -/
def assess_translation_quality (forward_conf back_conf similarity : ℚ) :
    OverallQuality :=
  let overall_score := forward_conf * (4/10) + back_conf * (3/10) + similarity * (3/10)
  let level_desc : Str × Str :=
    if overall_score ≥ 80 then
      (str "Excellent", str "High-quality translation with good preservation of meaning")
    else if overall_score ≥ 60 then
      (str "Good", str "Acceptable translation with minor meaning loss")
    else if overall_score ≥ 40 then
      (str "Fair", str "Translation may have some meaning distortion")
    else
      (str "Poor", str "Translation quality is low, manual review recommended")
  { overall_score := round2 overall_score,
    quality_level := level_desc.1,
    quality_description := level_desc.2,
    recommendations :=
      get_quality_recommendations overall_score forward_conf back_conf similarity }

/-- `TranslationModel.back_translate`. The empty-input branch reproduces the
Python dict literal at `model.py:106-120`, which contains neither an
`overall_quality` key nor an `overlapping_words` key inside `quality_metrics`. -/
def back_translate (m : TranslationModel) (text source_direction : Str) :
    BackTranslationResult :=
  if text = [] ∨ trim text = [] then
    { original_text := text, forward_translation := [], back_translation := [],
      forward_confidence := 0, back_confidence := 0,
      quality_metrics :=
        { similarity_score := 0, word_overlap := 0, total_original_words := 0,
          preservation_rate := 0, overlapping_words := none },
      overall_quality := none,
      source_direction := source_direction }
  else
    let forward_result := translate_single m text source_direction
    let forward_translation := forward_result.translated
    let forward_confidence := forward_result.confidence
    let back_direction :=
      if source_direction = str "en_to_ig" then str "ig_to_en" else str "en_to_ig"
    let back_result := translate_single m forward_translation back_direction
    let back_translation := back_result.translated
    let back_confidence := back_result.confidence
    let quality_metrics := calculate_back_translation_score text back_translation
    let overall_quality := assess_translation_quality forward_confidence
      back_confidence quality_metrics.similarity_score
    { original_text := text, forward_translation := forward_translation,
      back_translation := back_translation,
      forward_confidence := forward_confidence, back_confidence := back_confidence,
      quality_metrics := quality_metrics,
      overall_quality := some overall_quality,
      source_direction := source_direction }

/-- The per-level counts computed by `batch_back_translate`. -/
structure QualityDistribution where
  excellent : ℕ
  good : ℕ
  fair : ℕ
  poor : ℕ
deriving DecidableEq

/-- The `summary` part of `batch_back_translate`'s result (timestamp omitted). -/
structure BatchSummary where
  total_texts : ℕ
  average_quality_score : ℚ
  quality_distribution : QualityDistribution
deriving DecidableEq

/-- The full result of `batch_back_translate`. -/
structure BatchBackTranslationResult where
  results : List BackTranslationResult
  summary : BatchSummary
deriving DecidableEq

/-- `TranslationModel.batch_back_translate`. The loop body reads
`result['overall_quality']['overall_score']`; when the `overall_quality` key is
absent (the empty-input branch of `back_translate`) Python raises `KeyError`,
modelled as `Except.error`. -/
def batch_back_translate (m : TranslationModel) (texts : List Str)
    (source_direction : Str) : Except Str BatchBackTranslationResult := do
  let acc ← texts.foldlM
    (fun (acc : List BackTranslationResult × ℚ) text => do
      let result := back_translate m text source_direction
      match result.overall_quality with
      | none => Except.error (str "overall_quality")
      | some oq => Except.ok (acc.1 ++ [result], acc.2 + oq.overall_score))
    (([], 0) : List BackTranslationResult × ℚ)
  let results := acc.1
  let average_quality : ℚ := if texts = [] then 0 else acc.2 / (texts.length : ℚ)
  let countLevel : Str → ℕ := fun lvl =>
    results.countP (fun r => (r.overall_quality.map (fun q => q.quality_level)) == some lvl)
  Except.ok
    { results := results,
      summary :=
        { total_texts := texts.length,
          average_quality_score := round2 average_quality,
          quality_distribution :=
            { excellent := countLevel (str "Excellent"),
              good := countLevel (str "Good"),
              fair := countLevel (str "Fair"),
              poor := countLevel (str "Poor") } } }

/-- `TranslationModel._preprocess_data` on the two translation columns: trim
both sides, lower-case the English side, then `drop_duplicates()` (keeping the
first of each exact normalized pair). The source's `dropna()` runs after the
`apply(str(...))` normalization, when the two columns contain only strings, so
it removes nothing and in particular never removes empty strings. -/
def preprocess_data (rows : List (Str × Str)) : List (Str × Str) :=
  let normalized := rows.map (fun r => (lowerStr (trim r.1), trim r.2))
  normalized.foldl (fun acc p => if p ∈ acc then acc else acc ++ [p]) []

/-- `TranslationModel._build_dictionaries`: the forward dict inserts the
preprocessed pairs in order (last value wins per key), the inverse dict is the
key/value swap of the forward dict, inserted in the forward dict's order
(last key wins per value). -/
def build_dictionaries (rows : List (Str × Str)) : Dict × Dict :=
  let english_to_igala := rows.foldl (fun d r => dinsert d r.1 r.2) []
  let igala_to_english := english_to_igala.foldl (fun d r => dinsert d r.2 r.1) []
  (english_to_igala, igala_to_english)

/-- Lexicographic-by-code-point string comparison, as Python's `<=` on `str`
(used by `sorted`). -/
def leStr : Str → Str → Bool
  | [], _ => true
  | _ :: _, [] => false
  | a :: as, b :: bs =>
    if a.toNat < b.toNat then true
    else if b.toNat < a.toNat then false
    else leStr as bs

/-- `TranslationModel.get_word_suggestions` (the Python parameter is named
`partial_word`). Note the source tests `word.startswith(partial_word.lower())`
without lower-casing `word` itself. -/
def get_word_suggestions (m : TranslationModel) (pword : Str) (language : Str)
    (limit : ℕ) : List Str :=
  let dictionary :=
    if language = str "english" then dkeys m.english_to_igala
    else dkeys m.igala_to_english
  let suggestions := dictionary.filter (fun word => (lowerStr pword).isPrefixOf word)
  (suggestions.mergeSort leStr).take limit

/-- The dictionary of the spec's worked example (§8): hello→sannu, world→aiye,
with the inverse mapping as `_build_dictionaries` would produce it. -/
def sampleModel : TranslationModel :=
  { english_to_igala := [(str "hello", str "sannu"), (str "world", str "aiye")],
    igala_to_english := [(str "sannu", str "hello"), (str "aiye", str "world")] }

/-- A model with empty dictionaries (an empty corpus). -/
def emptyModel : TranslationModel :=
  { english_to_igala := [], igala_to_english := [] }

/-- The token list named by the spec: lower-case the text, split on whitespace. -/
def spec_tokens (text : Str) : List Str := pysplit (lowerStr text)

/-- The translated text as the spec words it: substitute each token that is a
key of the mapping, pass the others through, join with single spaces. -/
def spec_translated (dict : Dict) (text : Str) : Str :=
  joinSpace ((spec_tokens text).map (fun w => (dlookup dict w).getD w))

/-- The number of tokens that are keys of the mapping. -/
def spec_found (dict : Dict) (text : Str) : ℕ :=
  (spec_tokens text).countP (fun w => (dlookup dict w).isSome)

/-- The confidence as the spec words it: (keys found / token count) × 100,
rounded to 2 decimal places. -/
def spec_confidence (dict : Dict) (text : Str) : ℚ :=
  round2 ((spec_found dict text : ℚ) / ((spec_tokens text).length : ℚ) * 100)

/-- The spec's quality-level table, as a function of a score: inclusive lower
bounds 80/60/40 with the fixed description strings of §6. -/
def spec_quality_level (score : ℚ) : Str × Str :=
  if score ≥ 80 then
    (str "Excellent", str "High-quality translation with good preservation of meaning")
  else if score ≥ 60 then
    (str "Good", str "Acceptable translation with minor meaning loss")
  else if score ≥ 40 then
    (str "Fair", str "Translation may have some meaning distortion")
  else
    (str "Poor", str "Translation quality is low, manual review recommended")

/-- The spec's weighted sum 0.4×forward + 0.3×back + 0.3×similarity. -/
def spec_overall (forward back similarity : ℚ) : ℚ :=
  (4/10) * forward + (3/10) * back + (3/10) * similarity

section StringLemmas

theorem pysplit_nil : pysplit [] = [] := rfl

theorem pysplitAux_nil (acc : Str) :
    pysplitAux acc [] = if acc = [] then [] else [acc.reverse] := rfl

theorem pysplitAux_cons (acc : Str) (c : Char) (cs : Str) :
    pysplitAux acc (c :: cs) =
      if isSpaceChar c then
        (if acc = [] then [] else [acc.reverse]) ++ pysplitAux [] cs
      else pysplitAux (c :: acc) cs := rfl

theorem pysplit_cons_space {c : Char} (h : isSpaceChar c = true) (cs : Str) :
    pysplit (c :: cs) = pysplit cs := by
  unfold pysplit
  rw [pysplitAux_cons, if_pos h]
  simp

theorem pysplitAux_acc_spec (cs : Str) : ∀ acc : Str, acc ≠ [] →
    pysplitAux acc cs =
      (acc.reverse ++ cs.takeWhile (fun d => !isSpaceChar d)) ::
        pysplit (cs.dropWhile (fun d => !isSpaceChar d)) := by
  induction cs with
  | nil =>
    intro acc h
    simp [pysplitAux_nil, h, pysplit_nil]
  | cons c cs ih =>
    intro acc h
    by_cases hc : isSpaceChar c
    · rw [pysplitAux_cons, if_pos hc, if_neg h]
      have ht : (c :: cs).takeWhile (fun d => !isSpaceChar d) = [] := by
        rw [List.takeWhile_cons_of_neg]
        simp [hc]
      have hd : (c :: cs).dropWhile (fun d => !isSpaceChar d) = c :: cs := by
        rw [List.dropWhile_cons_of_neg]
        simp [hc]
      rw [ht, hd, pysplit_cons_space hc]
      simp [pysplit]
    · rw [pysplitAux_cons, if_neg hc]
      rw [ih (c :: acc) (by simp)]
      rw [List.takeWhile_cons_of_pos (by simp [hc])]
      rw [List.dropWhile_cons_of_pos (by simp [hc])]
      simp

theorem pysplit_cons_nonspace {c : Char} (h : isSpaceChar c = false) (cs : Str) :
    pysplit (c :: cs) =
      (c :: cs.takeWhile (fun d => !isSpaceChar d)) ::
        pysplit (cs.dropWhile (fun d => !isSpaceChar d)) := by
  rw [show pysplit (c :: cs) = pysplitAux [c] cs from by
        unfold pysplit
        rw [pysplitAux_cons, if_neg (by simp [h])]]
  rw [pysplitAux_acc_spec cs [c] (by simp)]
  simp

theorem pysplitAux_eq_nil_iff : ∀ (cs acc : Str),
    pysplitAux acc cs = [] ↔ (acc = [] ∧ ∀ c ∈ cs, isSpaceChar c = true) := by
  intro cs
  induction cs with
  | nil =>
    intro acc
    by_cases h : acc = [] <;> simp [pysplitAux_nil, h]
  | cons c cs ih =>
    intro acc
    by_cases hc : isSpaceChar c
    · rw [pysplitAux_cons, if_pos hc]
      by_cases h : acc = []
      · simp [h, ih, hc]
      · simp [h, hc]
    · rw [pysplitAux_cons, if_neg hc]
      rw [ih]
      simp [hc]

theorem pysplit_eq_nil_iff {s : Str} :
    pysplit s = [] ↔ ∀ c ∈ s, isSpaceChar c = true := by
  unfold pysplit
  rw [pysplitAux_eq_nil_iff]
  simp

theorem ne_nil_of_mem_pysplitAux {t : Str} : ∀ (cs acc : Str),
    t ∈ pysplitAux acc cs → t ≠ [] := by
  intro cs
  induction cs with
  | nil =>
    intro acc ht
    rw [pysplitAux_nil] at ht
    by_cases h : acc = []
    · simp [h] at ht
    · simp [h] at ht
      simp [ht, h]
  | cons c cs ih =>
    intro acc ht
    rw [pysplitAux_cons] at ht
    by_cases hc : isSpaceChar c
    · rw [if_pos hc] at ht
      rcases List.mem_append.1 ht with h1 | h2
      · by_cases h : acc = []
        · simp [h] at h1
        · simp [h] at h1
          simp [h1, h]
      · exact ih [] h2
    · rw [if_neg hc] at ht
      exact ih (c :: acc) ht

theorem mem_of_mem_pysplitAux {t : Str} {x : Char} : ∀ (cs acc : Str),
    t ∈ pysplitAux acc cs → x ∈ t → x ∈ acc ∨ x ∈ cs := by
  intro cs
  induction cs with
  | nil =>
    intro acc ht hx
    rw [pysplitAux_nil] at ht
    by_cases h : acc = []
    · simp [h] at ht
    · simp [h] at ht
      subst ht
      exact Or.inl (List.mem_reverse.1 hx)
  | cons c cs ih =>
    intro acc ht hx
    rw [pysplitAux_cons] at ht
    by_cases hc : isSpaceChar c
    · rw [if_pos hc] at ht
      rcases List.mem_append.1 ht with h1 | h2
      · by_cases h : acc = []
        · simp [h] at h1
        · simp [h] at h1
          subst h1
          exact Or.inl (List.mem_reverse.1 hx)
      · rcases ih [] h2 hx with h3 | h3
        · simp at h3
        · exact Or.inr (List.mem_cons_of_mem _ h3)
    · rw [if_neg hc] at ht
      rcases ih (c :: acc) ht hx with h3 | h3
      · rcases List.mem_cons.1 h3 with rfl | h4
        · exact Or.inr (List.mem_cons_self _ _)
        · exact Or.inl h4
      · exact Or.inr (List.mem_cons_of_mem _ h3)

theorem nospace_of_mem_pysplitAux {t : Str} : ∀ (cs acc : Str),
    (∀ d ∈ acc, isSpaceChar d = false) → t ∈ pysplitAux acc cs →
      ∀ d ∈ t, isSpaceChar d = false := by
  intro cs
  induction cs with
  | nil =>
    intro acc hacc ht
    rw [pysplitAux_nil] at ht
    by_cases h : acc = []
    · simp [h] at ht
    · simp [h] at ht
      subst ht
      intro d hd
      exact hacc d (List.mem_reverse.1 hd)
  | cons c cs ih =>
    intro acc hacc ht
    rw [pysplitAux_cons] at ht
    by_cases hc : isSpaceChar c
    · rw [if_pos hc] at ht
      rcases List.mem_append.1 ht with h1 | h2
      · by_cases h : acc = []
        · simp [h] at h1
        · simp [h] at h1
          subst h1
          intro d hd
          exact hacc d (List.mem_reverse.1 hd)
      · exact ih [] (by simp) h2
    · rw [if_neg hc] at ht
      refine ih (c :: acc) ?_ ht
      intro d hd
      rcases List.mem_cons.1 hd with rfl | h4
      · simpa using hc
      · exact hacc d h4

theorem ne_nil_of_mem_pysplit {t s : Str} (h : t ∈ pysplit s) : t ≠ [] :=
  ne_nil_of_mem_pysplitAux s [] h

theorem mem_of_mem_pysplit {t s : Str} {x : Char} (h : t ∈ pysplit s)
    (hx : x ∈ t) : x ∈ s := by
  rcases mem_of_mem_pysplitAux s [] h hx with h1 | h1
  · simp at h1
  · exact h1

theorem nospace_of_mem_pysplit {t s : Str} (h : t ∈ pysplit s) :
    ∀ d ∈ t, isSpaceChar d = false :=
  nospace_of_mem_pysplitAux s [] (by simp) h

theorem trim_eq_nil_iff {s : Str} :
    trim s = [] ↔ ∀ c ∈ s, isSpaceChar c = true := by
  unfold trim
  rw [List.reverse_eq_nil_iff, List.dropWhile_eq_nil_iff]
  constructor
  · intro h c hc
    rw [← List.takeWhile_append_dropWhile (p := isSpaceChar) (l := s)] at hc
    rcases List.mem_append.1 hc with h1 | h2
    · have := List.all_takeWhile (p := isSpaceChar) (l := s)
      exact List.all_eq_true.1 this c h1
    · exact h c (List.mem_reverse.2 h2)
  · intro h c hc
    refine h c ?_
    exact (List.dropWhile_sublist isSpaceChar).mem (List.mem_reverse.1 hc)

theorem char_toNat_ofNat {n : ℕ} (h : Nat.isValidChar n) :
    (Char.ofNat n).toNat = n := by
  unfold Char.ofNat
  rw [dif_pos h]
  rfl

theorem isSpaceChar_eq_false_of_ge {c : Char} (h : 33 ≤ c.toNat) :
    isSpaceChar c = false := by
  unfold isSpaceChar
  simp only [Bool.or_eq_false_iff, beq_eq_false_iff_ne, ne_eq]
  omega

theorem toNat_toLower_of_upper {c : Char} (h1 : 65 ≤ c.toNat) (h2 : c.toNat ≤ 90) :
    c.toLower.toNat = c.toNat + 32 := by
  unfold Char.toLower
  rw [if_pos ⟨h1, h2⟩]
  exact char_toNat_ofNat (Or.inl (by omega))

theorem toLower_of_not_upper {c : Char} (h : ¬(65 ≤ c.toNat ∧ c.toNat ≤ 90)) :
    c.toLower = c := by
  unfold Char.toLower
  rw [if_neg h]

theorem isSpaceChar_toLower (c : Char) :
    isSpaceChar c.toLower = isSpaceChar c := by
  by_cases h : 65 ≤ c.toNat ∧ c.toNat ≤ 90
  · rw [isSpaceChar_eq_false_of_ge (by omega : 33 ≤ c.toNat)]
    rw [isSpaceChar_eq_false_of_ge]
    rw [toNat_toLower_of_upper h.1 h.2]
    omega
  · rw [toLower_of_not_upper h]

theorem toLower_toLower (c : Char) : c.toLower.toLower = c.toLower := by
  by_cases h : 65 ≤ c.toNat ∧ c.toNat ≤ 90
  · refine toLower_of_not_upper ?_
    rw [toNat_toLower_of_upper h.1 h.2]
    omega
  · rw [toLower_of_not_upper h, toLower_of_not_upper h]

theorem joinSpace_nil : joinSpace [] = [] := rfl

theorem joinSpace_single (t : Str) : joinSpace [t] = t := rfl

theorem joinSpace_cons₂ (t u : Str) (ts : List Str) :
    joinSpace (t :: u :: ts) = t ++ ' ' :: joinSpace (u :: ts) := rfl

theorem mem_joinSpace_of_mem {t : Str} {c : Char} :
    ∀ {ts : List Str}, t ∈ ts → c ∈ t → c ∈ joinSpace ts := by
  intro ts
  induction ts with
  | nil => simp
  | cons hd tl ih =>
    intro ht hc
    cases tl with
    | nil =>
      rw [joinSpace_single]
      rcases List.mem_cons.1 ht with rfl | h2
      · exact hc
      · simp at h2
    | cons u ts' =>
      rw [joinSpace_cons₂]
      rcases List.mem_cons.1 ht with rfl | h2
      · exact List.mem_append.2 (Or.inl hc)
      · exact List.mem_append.2 (Or.inr (List.mem_cons_of_mem _ (ih h2 hc)))

theorem eq_space_or_mem_of_mem_joinSpace {c : Char} :
    ∀ {ts : List Str}, c ∈ joinSpace ts → c = ' ' ∨ ∃ t ∈ ts, c ∈ t := by
  intro ts
  induction ts with
  | nil => simp [joinSpace_nil]
  | cons hd tl ih =>
    intro hc
    cases tl with
    | nil =>
      rw [joinSpace_single] at hc
      exact Or.inr ⟨hd, List.mem_cons_self _ _, hc⟩
    | cons u ts' =>
      rw [joinSpace_cons₂] at hc
      rcases List.mem_append.1 hc with h1 | h2
      · exact Or.inr ⟨hd, List.mem_cons_self _ _, h1⟩
      · rcases List.mem_cons.1 h2 with rfl | h3
        · exact Or.inl rfl
        · rcases ih h3 with h4 | ⟨t, ht, hct⟩
          · exact Or.inl h4
          · exact Or.inr ⟨t, List.mem_cons_of_mem _ ht, hct⟩

theorem takeWhile_eq_self_of_all {l : Str} {p : Char → Bool}
    (h : ∀ c ∈ l, p c = true) : l.takeWhile p = l := by
  have h2 : l.dropWhile p = [] := List.dropWhile_eq_nil_iff.2 h
  have h3 := List.takeWhile_append_dropWhile (p := p) (l := l)
  rw [h2, List.append_nil] at h3
  exact h3

theorem pysplit_joinSpace : ∀ {ts : List Str}, (∀ t ∈ ts, t ≠ []) →
    (∀ t ∈ ts, ∀ c ∈ t, isSpaceChar c = false) → pysplit (joinSpace ts) = ts := by
  intro ts
  induction ts with
  | nil => simp [joinSpace_nil, pysplit_nil]
  | cons hd tl ih =>
    intro hne hns
    have hhd : hd ≠ [] := hne hd (List.mem_cons_self _ _)
    obtain ⟨c, t', rfl⟩ := List.exists_cons_of_ne_nil hhd
    have hc : isSpaceChar c = false :=
      hns _ (List.mem_cons_self _ _) c (List.mem_cons_self _ _)
    have ht' : ∀ d ∈ t', (fun d => !isSpaceChar d) d = true := by
      intro d hd
      simp [hns _ (List.mem_cons_self _ _) d (List.mem_cons_of_mem _ hd)]
    cases tl with
    | nil =>
      rw [joinSpace_single, pysplit_cons_nonspace hc]
      rw [takeWhile_eq_self_of_all ht', List.dropWhile_eq_nil_iff.2 ht', pysplit_nil]
    | cons u ts' =>
      rw [joinSpace_cons₂, List.cons_append, pysplit_cons_nonspace hc]
      rw [List.takeWhile_append_of_pos ht', List.dropWhile_append_of_pos ht']
      rw [List.takeWhile_cons_of_neg (by simp; decide)]
      rw [List.dropWhile_cons_of_neg (by simp; decide)]
      rw [List.append_nil, pysplit_cons_space (by decide)]
      rw [ih (fun t ht => hne t (List.mem_cons_of_mem _ ht))
        (fun t ht => hns t (List.mem_cons_of_mem _ ht))]

theorem lowerStr_eq_self {s : Str} (h : ∀ c ∈ s, c.toLower = c) : lowerStr s = s := by
  unfold lowerStr
  rw [List.map_congr_left h]
  exact List.map_id s

theorem pysplit_lowerStr_ne_nil {s : Str} (h : trim s ≠ []) :
    pysplit (lowerStr s) ≠ [] := by
  intro hc
  apply h
  rw [trim_eq_nil_iff]
  intro c hcs
  have h2 := pysplit_eq_nil_iff.1 hc c.toLower (List.mem_map_of_mem _ hcs)
  rw [isSpaceChar_toLower] at h2
  exact h2

theorem lowerStr_joinSpace_pysplit (s : Str) :
    lowerStr (joinSpace (pysplit (lowerStr s))) = joinSpace (pysplit (lowerStr s)) := by
  refine lowerStr_eq_self ?_
  intro c hc
  rcases eq_space_or_mem_of_mem_joinSpace hc with rfl | ⟨t, ht, hct⟩
  · decide
  · have h2 : c ∈ lowerStr s := mem_of_mem_pysplit ht hct
    obtain ⟨d, _, rfl⟩ := List.mem_map.1 h2
    exact toLower_toLower d

theorem joinSpace_mem_nonspace {ts : List Str} (hne : ∀ t ∈ ts, t ≠ [])
    (hns : ∀ t ∈ ts, ∀ c ∈ t, isSpaceChar c = false) (h : ts ≠ []) :
    joinSpace ts ≠ [] ∧ trim (joinSpace ts) ≠ [] := by
  obtain ⟨t, ts', rfl⟩ := List.exists_cons_of_ne_nil h
  obtain ⟨c, t', rfl⟩ := List.exists_cons_of_ne_nil (hne _ (List.mem_cons_self _ _))
  have hc : c ∈ joinSpace ((c :: t') :: ts') :=
    mem_joinSpace_of_mem (List.mem_cons_self _ _) (List.mem_cons_self _ _)
  have hcs : isSpaceChar c = false :=
    hns _ (List.mem_cons_self _ _) c (List.mem_cons_self _ _)
  constructor
  · intro hj
    rw [hj] at hc
    simp at hc
  · intro hj
    have := trim_eq_nil_iff.1 hj c hc
    rw [this] at hcs
    simp at hcs

end StringLemmas

section DictLemmas

/-- The dict invariant: keys are pairwise distinct. -/
def UniqKeys (d : Dict) : Prop := d.Pairwise (fun p q => p.1 ≠ q.1)

theorem mem_dinsert {p : Str × Str} {d : Dict} {k v : Str}
    (h : p ∈ dinsert d k v) : p = (k, v) ∨ p ∈ d := by
  unfold dinsert at h
  by_cases hc : d.any (fun q => q.1 == k)
  · rw [if_pos hc] at h
    obtain ⟨q, hq, hfq⟩ := List.mem_map.1 h
    by_cases hk : q.1 == k
    · rw [if_pos hk] at hfq
      exact Or.inl hfq.symm
    · rw [if_neg hk] at hfq
      exact Or.inr (hfq ▸ hq)
  · rw [if_neg hc] at h
    rcases List.mem_append.1 h with h1 | h2
    · exact Or.inr h1
    · simp at h2
      exact Or.inl h2

theorem uniqKeys_dinsert {d : Dict} {k v : Str} (h : UniqKeys d) :
    UniqKeys (dinsert d k v) := by
  unfold dinsert
  by_cases hc : d.any (fun q => q.1 == k)
  · rw [if_pos hc]
    unfold UniqKeys at h ⊢
    rw [List.pairwise_map]
    have hkey : ∀ p : Str × Str, ((if p.1 == k then (k, v) else p)).1 = p.1 := by
      intro p
      by_cases hk : p.1 == k
      · rw [if_pos hk]
        exact (beq_iff_eq.1 hk).symm
      · rw [if_neg hk]
    refine h.imp ?_
    intro a b hab
    rw [hkey a, hkey b]
    exact hab
  · rw [if_neg hc]
    unfold UniqKeys at h ⊢
    rw [List.pairwise_append]
    refine ⟨h, List.pairwise_singleton _ _, ?_⟩
    intro p hp q hq
    simp only [List.mem_singleton] at hq
    subst hq
    intro hpk
    rw [List.any_eq_true] at hc
    exact hc ⟨p, hp, beq_iff_eq.2 hpk⟩

theorem mem_foldl_dinsert {α : Type} (f g : α → Str) :
    ∀ (l : List α) (d₀ : Dict) (p : Str × Str),
      p ∈ l.foldl (fun d r => dinsert d (f r) (g r)) d₀ →
        p ∈ d₀ ∨ ∃ r ∈ l, p = (f r, g r) := by
  intro l
  induction l with
  | nil => simp
  | cons a l ih =>
    intro d₀ p hp
    rw [List.foldl_cons] at hp
    rcases ih _ p hp with h1 | ⟨r, hr, hpr⟩
    · rcases mem_dinsert h1 with h2 | h2
      · exact Or.inr ⟨a, List.mem_cons_self _ _, h2⟩
      · exact Or.inl h2
    · exact Or.inr ⟨r, List.mem_cons_of_mem _ hr, hpr⟩

theorem uniqKeys_foldl_dinsert {α : Type} (f g : α → Str) :
    ∀ (l : List α) (d₀ : Dict), UniqKeys d₀ →
      UniqKeys (l.foldl (fun d r => dinsert d (f r) (g r)) d₀) := by
  intro l
  induction l with
  | nil =>
    intro d₀ h
    exact h
  | cons a l ih =>
    intro d₀ h
    rw [List.foldl_cons]
    exact ih _ (uniqKeys_dinsert h)

theorem mem_of_dlookup_eq_some {d : Dict} {k v : Str}
    (h : dlookup d k = some v) : (k, v) ∈ d := by
  unfold dlookup at h
  cases hfind : d.find? (fun p => p.1 == k) with
  | none => rw [hfind] at h; simp at h
  | some p =>
    rw [hfind] at h
    simp only [Option.map_some'] at h
    have hp := List.mem_of_find?_eq_some hfind
    have hkey' := List.find?_some hfind
    have hkey : p.1 = k := by
      simpa using hkey'
    have : p = (k, v) := by
      obtain ⟨p1, p2⟩ := p
      simp only at hkey
      injection h with h2
      simp only at h2
      rw [hkey, h2]
    rw [← this]
    exact hp

theorem dlookup_eq_some_of_mem_uniq :
    ∀ {d : Dict}, UniqKeys d → ∀ {k v : Str}, (k, v) ∈ d →
      dlookup d k = some v := by
  intro d
  induction d with
  | nil => intro _ k v h; simp at h
  | cons p d ih =>
    intro hu k v h
    have hup := List.pairwise_cons.1 hu
    rcases List.mem_cons.1 h with h1 | h2
    · subst h1
      unfold dlookup
      rw [List.find?_cons_of_pos _ (by simp)]
      rfl
    · have hne : p.1 ≠ k := by
        intro hk
        exact (hk ▸ hup.1 (k, v) h2) rfl
      unfold dlookup
      rw [List.find?_cons_of_neg _ (by simp [hne])]
      exact ih hup.2 h2

end DictLemmas

section OrderLemmas

theorem leStr_nil (b : Str) : leStr [] b = true := rfl

theorem leStr_trans : ∀ a b c : Str, leStr a b = true → leStr b c = true →
    leStr a c = true := by
  intro a
  induction a with
  | nil => intro b c _ _; rfl
  | cons x xs ih =>
    intro b c hab hbc
    cases b with
    | nil => simp [leStr] at hab
    | cons y ys =>
      cases c with
      | nil => simp [leStr] at hbc
      | cons z zs =>
        simp only [leStr] at hab hbc ⊢
        split_ifs at hab hbc ⊢ <;>
          first
            | rfl
            | omega
            | exact ih ys zs hab hbc

theorem leStr_total : ∀ a b : Str, (leStr a b || leStr b a) = true := by
  intro a
  induction a with
  | nil => intro b; rfl
  | cons x xs ih =>
    intro b
    cases b with
    | nil => rfl
    | cons y ys =>
      simp only [leStr]
      split_ifs <;>
        first
          | rfl
          | omega
          | exact ih ys

end OrderLemmas

section RoundLemmas

theorem round2_zero : round2 0 = 0 := by
  rw [round2]
  norm_num [pyround]

theorem round2_hundred : round2 100 = 100 := by
  rw [round2]
  have h : (100 : ℚ) * 100 = 10000 := by norm_num
  rw [h]
  norm_num [pyround]

end RoundLemmas

section ModelLemmas

theorem calculate_confidence_formula (m : TranslationModel)
    (text translated_text direction : Str) (h : spec_tokens text ≠ []) :
    calculate_confidence m text translated_text direction =
      round2 ((spec_found (pickDict m direction) text : ℚ) /
        ((spec_tokens text).length : ℚ) * 100) := by
  have hlen : ¬ (pysplit (lowerStr text)).length = 0 := by
    rw [List.length_eq_zero]
    exact h
  simp only [calculate_confidence, spec_found, spec_tokens]
  rw [if_neg hlen]

theorem calculate_confidence_eq_spec (m : TranslationModel)
    (text translated_text direction : Str) :
    calculate_confidence m text translated_text direction =
      spec_confidence (pickDict m direction) text := by
  by_cases h : spec_tokens text = []
  · have h' : pysplit (lowerStr text) = [] := h
    simp only [calculate_confidence, spec_confidence, spec_found, spec_tokens, h']
    simp [round2_zero]
  · rw [calculate_confidence_formula m text translated_text direction h]
    rfl

theorem translate_single_all_miss (m : TranslationModel) (t direction : Str)
    (h1 : t ≠ []) (h2 : trim t ≠ [])
    (hm : ∀ w ∈ pysplit (lowerStr t), dlookup (pickDict m direction) w = none) :
    translate_single m t direction =
      { original := t, translated := joinSpace (pysplit (lowerStr t)),
        confidence := 0, direction := direction } := by
  have hguard : ¬ (t = [] ∨ trim t = []) := by
    simp [h1, h2]
  have hmap : (pysplit (lowerStr t)).map
      (fun w => (dlookup (pickDict m direction) w).getD w) = pysplit (lowerStr t) := by
    have hid : ∀ w ∈ pysplit (lowerStr t),
        (dlookup (pickDict m direction) w).getD w = id w := by
      intro w hw
      rw [hm w hw]
      rfl
    rw [List.map_congr_left hid, List.map_id]
  have hconf : ∀ tt : Str, calculate_confidence m t tt direction = 0 := by
    intro tt
    have hcount : (pysplit (lowerStr t)).countP
        (fun word => (dlookup (pickDict m direction) word).isSome) = 0 := by
      rw [List.countP_eq_zero]
      intro w hw
      rw [hm w hw]
      simp
    simp only [calculate_confidence, hcount]
    by_cases hz : (pysplit (lowerStr t)).length = 0
    · rw [if_pos hz]
    · rw [if_neg hz]
      norm_num [round2_zero]
  simp only [translate_single, if_neg hguard, hmap, hconf]

end ModelLemmas

section SanityChecks

/-- The spec's §8 example: `translateSingle("Hello World", FORWARD)` over
{hello→sannu, world→aiye} yields "sannu aiye" with confidence 100.0. -/
theorem sample_translation_eval :
    translate_single sampleModel (str "Hello World") (str "en_to_ig") =
      { original := str "Hello World", translated := str "sannu aiye",
        confidence := 100, direction := str "en_to_ig" } := by
  have hguard : ¬(str "Hello World" = [] ∨ trim (str "Hello World") = []) := by decide
  have hmap : joinSpace ((pysplit (lowerStr (str "Hello World"))).map
      (fun w => (dlookup (pickDict sampleModel (str "en_to_ig")) w).getD w)) =
        str "sannu aiye" := by decide
  have hcount : (pysplit (lowerStr (str "Hello World"))).countP
      (fun w => (dlookup (pickDict sampleModel (str "en_to_ig")) w).isSome) = 2 := by
    decide
  have hlen : (pysplit (lowerStr (str "Hello World"))).length = 2 := by decide
  simp only [translate_single, if_neg hguard, calculate_confidence, hmap, hcount, hlen]
  norm_num
  exact round2_hundred

/-- The spec's §8 example: `translateSingle("hello there", FORWARD)` yields
"sannu there" (unmapped token passed through) with confidence 50.0. -/
theorem sample_translation_eval₂ :
    translate_single sampleModel (str "hello there") (str "en_to_ig") =
      { original := str "hello there", translated := str "sannu there",
        confidence := 50, direction := str "en_to_ig" } := by
  have hguard : ¬(str "hello there" = [] ∨ trim (str "hello there") = []) := by decide
  have hmap : joinSpace ((pysplit (lowerStr (str "hello there"))).map
      (fun w => (dlookup (pickDict sampleModel (str "en_to_ig")) w).getD w)) =
        str "sannu there" := by decide
  have hcount : (pysplit (lowerStr (str "hello there"))).countP
      (fun w => (dlookup (pickDict sampleModel (str "en_to_ig")) w).isSome) = 1 := by
    decide
  have hlen : (pysplit (lowerStr (str "hello there"))).length = 2 := by decide
  simp only [translate_single, if_neg hguard, calculate_confidence, hmap, hcount, hlen]
  norm_num
  rw [round2, show (50 : ℚ) * 100 = 5000 by norm_num]
  norm_num [pyround]

end SanityChecks

section Claims

/-- C1: for every non-empty, non-whitespace input text and every direction,
`translate_single` lower-cases the text, splits it on whitespace into tokens,
substitutes each token that is a key of the direction's mapping and passes
other tokens through unchanged, joins the substituted tokens with single
spaces, and reports confidence (tokens that are keys / total tokens) × 100
rounded to 2 decimal places. -/
theorem translate_single_matches_spec (m : TranslationModel) (text direction : Str)
    (h1 : text ≠ []) (h2 : trim text ≠ []) :
    translate_single m text direction =
      { original := text,
        translated := spec_translated (pickDict m direction) text,
        confidence := spec_confidence (pickDict m direction) text,
        direction := direction } := by
  have hguard : ¬ (text = [] ∨ trim text = []) := by
    simp [h1, h2]
  simp only [translate_single, if_neg hguard, spec_translated, spec_tokens]
  rw [calculate_confidence_eq_spec]

/-- Witness for C1: the spec's §8 dictionary and the input "Hello World". -/
theorem translate_single_matches_spec_witness :
    str "Hello World" ≠ [] ∧ trim (str "Hello World") ≠ [] ∧
      translate_single sampleModel (str "Hello World") (str "en_to_ig") =
        { original := str "Hello World",
          translated := spec_translated (pickDict sampleModel (str "en_to_ig"))
            (str "Hello World"),
          confidence := spec_confidence (pickDict sampleModel (str "en_to_ig"))
            (str "Hello World"),
          direction := str "en_to_ig" } :=
  ⟨by decide, by decide,
    translate_single_matches_spec sampleModel (str "Hello World") (str "en_to_ig")
      (by decide) (by decide)⟩

/-- C9: whenever `translate_single` passes its emptiness guard (non-empty,
non-whitespace text), the token list of the lower-cased text is non-empty, so
inside `calculate_confidence` the total word count is strictly positive, the
division never divides by zero, and the `total_words == 0` early-return branch
is not taken: the function returns the rounded division formula. -/
theorem confidence_zero_branch_unreachable (m : TranslationModel)
    (text translated_text direction : Str) (h1 : text ≠ []) (h2 : trim text ≠ []) :
    0 < (spec_tokens text).length ∧
      calculate_confidence m text translated_text direction =
        round2 ((spec_found (pickDict m direction) text : ℚ) /
          ((spec_tokens text).length : ℚ) * 100) := by
  have h3 : spec_tokens text ≠ [] := pysplit_lowerStr_ne_nil h2
  exact ⟨List.length_pos.2 h3,
    calculate_confidence_formula m text translated_text direction h3⟩

/-- Witness for C9 at the §8 dictionary and the input "Hello World". -/
theorem confidence_zero_branch_unreachable_witness :
    str "Hello World" ≠ [] ∧ trim (str "Hello World") ≠ [] ∧
      (0 < (spec_tokens (str "Hello World")).length ∧
        calculate_confidence sampleModel (str "Hello World") (str "sannu aiye")
            (str "en_to_ig") =
          round2 ((spec_found (pickDict sampleModel (str "en_to_ig"))
              (str "Hello World") : ℚ) /
            ((spec_tokens (str "Hello World")).length : ℚ) * 100)) :=
  ⟨by decide, by decide,
    confidence_zero_branch_unreachable sampleModel (str "Hello World")
      (str "sannu aiye") (str "en_to_ig") (by decide) (by decide)⟩

/-- C2 counterexample: at forward=100, back=100, similarity=33.32 the
unrounded weighted sum is 79.996, so `_assess_translation_quality` reports an
overall score of exactly 80.0 (after rounding) together with level "Good":
an overall score of 80.0 does not yield EXCELLENT, contradicting the claim
that the level is determined by thresholds on the (rounded) overall score. -/
theorem assess_quality_threshold_counterexample :
    (assess_translation_quality 100 100 (3332/100)).overall_score = 80 ∧
      (assess_translation_quality 100 100 (3332/100)).quality_level = str "Good" ∧
      str "Good" ≠ str "Excellent" := by
  have hsum : (100 : ℚ) * (4/10) + 100 * (3/10) + (3332/100) * (3/10) = 39998/500 := by
    norm_num
  have hlt : ¬ ((39998 : ℚ)/500 ≥ 80) := by norm_num
  have hge : (39998 : ℚ)/500 ≥ 60 := by norm_num
  refine ⟨?_, ?_, by decide⟩
  · simp only [assess_translation_quality, hsum]
    rw [round2]
    have h : (39998 : ℚ)/500 * 100 = 39998/5 := by norm_num
    rw [h]
    have hnum : ((39998 : ℚ)/5).num = 39998 := by norm_num
    have hden : ((39998 : ℚ)/5).den = 5 := by norm_num
    have hf : Int.fdiv (39998 : ℤ) 5 = 7999 := by decide
    simp only [pyround, hnum, hden, Nat.cast_ofNat, hf]
    norm_num
  · simp only [assess_translation_quality, hsum, if_neg hlt, if_pos hge]

/-- C2 (amended): for inputs in [0,100], `_assess_translation_quality` reports
`round2` of the weighted sum 0.4×forward + 0.3×back + 0.3×similarity as the
overall score, but determines the quality level and description by the
inclusive thresholds 80/60/40 applied to the UNROUNDED weighted sum (so a sum
of exactly 80.0 is EXCELLENT, 79.99 GOOD, 60.0 GOOD, 59.99 FAIR, 40.0 FAIR,
39.99 POOR), and produces the recommendations from the unrounded sum as well. -/
theorem assess_quality_spec (f b s : ℚ)
    (hf0 : 0 ≤ f) (hf1 : f ≤ 100) (hb0 : 0 ≤ b) (hb1 : b ≤ 100)
    (hs0 : 0 ≤ s) (hs1 : s ≤ 100) :
    assess_translation_quality f b s =
      { overall_score := round2 (spec_overall f b s),
        quality_level := (spec_quality_level (spec_overall f b s)).1,
        quality_description := (spec_quality_level (spec_overall f b s)).2,
        recommendations :=
          get_quality_recommendations (spec_overall f b s) f b s } := by
  have hcomm : f * (4/10) + b * (3/10) + s * (3/10) = spec_overall f b s := by
    rw [spec_overall]
    ring
  simp only [assess_translation_quality, hcomm, spec_quality_level]

/-- Witness for C2 at forward=back=similarity=80 (all within [0,100]). -/
theorem assess_quality_spec_witness :
    (0 : ℚ) ≤ 80 ∧ (80 : ℚ) ≤ 100 ∧
      assess_translation_quality 80 80 80 =
        { overall_score := round2 (spec_overall 80 80 80),
          quality_level := (spec_quality_level (spec_overall 80 80 80)).1,
          quality_description := (spec_quality_level (spec_overall 80 80 80)).2,
          recommendations :=
            get_quality_recommendations (spec_overall 80 80 80) 80 80 80 } :=
  ⟨by decide, by decide,
    assess_quality_spec 80 80 80 (by decide) (by decide) (by decide) (by decide)
      (by decide) (by decide)⟩

/-- C3 (code bug): for a batch containing an empty (or whitespace-only) text,
`batch_back_translate` does not return a result at all: the empty-input branch
of `back_translate` yields a dict with no `overall_quality` key, so the
aggregation loop's read `result['overall_quality']['overall_score']` raises
`KeyError` instead of producing per-text results, a mean and a distribution. -/
theorem batch_back_translate_empty_text_keyerror (m : TranslationModel)
    (source_direction : Str) :
    batch_back_translate m [[]] source_direction =
      Except.error (str "overall_quality") := rfl

/-- C4 (code bug): for whitespace-only input the result of `back_translate`
has empty translations, zero confidences and all-zero numeric metrics, but
contains NO `overall_quality` entry at all (modelled as `none`) — there is no
OverallQuality with the default "no concerns" recommendation, and the
`quality_metrics` dict also lacks the `overlapping_words` key. -/
theorem back_translate_empty_input_eval :
    back_translate sampleModel (str " ") (str "en_to_ig") =
      { original_text := str " ", forward_translation := [], back_translation := [],
        forward_confidence := 0, back_confidence := 0,
        quality_metrics :=
          { similarity_score := 0, word_overlap := 0, total_original_words := 0,
            preservation_rate := 0, overlapping_words := none },
        overall_quality := none,
        source_direction := str "en_to_ig" } := by
  rw [back_translate, if_pos (by decide : str " " = [] ∨ trim (str " ") = [])]

/-- C5 counterexample: `calculate_back_translation_score("", "x")` returns the
all-zero metrics WITHOUT an `overlapping_words` key (modelled as `none`),
not with an empty overlappingWords set (`some ∅`). -/
theorem score_empty_original_counterexample :
    (calculate_back_translation_score [] (str "x")).overlapping_words = none ∧
      (none : Option (Finset Str)) ≠ some (∅ : Finset Str) := by
  constructor
  · rw [calculate_back_translation_score,
      if_pos (by decide : (pysplit (lowerStr [])).toFinset = (∅ : Finset Str))]
  · decide

/-- C5 (amended): for every second argument, `calculate_back_translation_score`
applied to an original whose lower-cased whitespace-token set is empty returns
similarity 0.0, overlap 0, total 0, preservation 0.0 — and no
`overlapping_words` field at all (the key is absent from the returned dict,
modelled as `none`), rather than an empty overlappingWords set. -/
theorem score_empty_original_spec (original back_translated : Str)
    (h : (pysplit (lowerStr original)).toFinset = (∅ : Finset Str)) :
    calculate_back_translation_score original back_translated =
      { similarity_score := 0, word_overlap := 0, total_original_words := 0,
        preservation_rate := 0, overlapping_words := none } := by
  rw [calculate_back_translation_score, if_pos h]

/-- Witness for C5 at a whitespace-only original and arbitrary second argument. -/
theorem score_empty_original_spec_witness :
    (pysplit (lowerStr (str "  "))).toFinset = (∅ : Finset Str) ∧
      calculate_back_translation_score (str "  ") (str "anything") =
        { similarity_score := 0, word_overlap := 0, total_original_words := 0,
          preservation_rate := 0, overlapping_words := none } :=
  ⟨by decide, score_empty_original_spec (str "  ") (str "anything") (by decide)⟩

/-- C6 (code bug): a pair whose English side is empty after normalization is
NOT dropped: `dropna()` runs after the `str(...)` conversions (and an empty
string is not NaN anyway), so `("", "foo")` survives preprocessing and is
inserted into the forward mapping under the empty-string key. -/
theorem preprocess_keeps_empty_sided_pair :
    (build_dictionaries (preprocess_data [(str "", str "foo")])).1 =
        [([], str "foo")] ∧
      dlookup (build_dictionaries (preprocess_data [(str "", str "foo")])).1 [] =
        some (str "foo") ∧
      ([([], str "foo")] : Dict) ≠ [] := by
  refine ⟨by decide, by decide, by decide⟩

/-- C7 counterexample: "A" has no dictionary hits in the empty model, yet its
forward translation is "a", not the original text unchanged — `translate_single`
lower-cases its input before substituting. -/
theorem untranslatable_roundtrip_counterexample :
    dlookup emptyModel.english_to_igala (str "a") = none ∧
      dlookup emptyModel.igala_to_english (str "a") = none ∧
      (back_translate emptyModel (str "A") (str "en_to_ig")).forward_translation ≠
        str "A" := by
  refine ⟨by decide, by decide, by decide⟩

/-- C7 (amended): for every non-empty, non-whitespace text none of whose
tokens hits either dictionary, the forward and back translations both equal
the lower-cased, single-space-normalized form of the text (hence equal the
original exactly when it is already in that form), both confidences are 0.0,
and the similarity score is 100.0. -/
theorem untranslatable_roundtrip (m : TranslationModel) (text direction : Str)
    (h1 : text ≠ []) (h2 : trim text ≠ [])
    (hmiss : ∀ w ∈ pysplit (lowerStr text),
      dlookup m.english_to_igala w = none ∧ dlookup m.igala_to_english w = none) :
    (back_translate m text direction).forward_translation =
        joinSpace (pysplit (lowerStr text)) ∧
      (back_translate m text direction).back_translation =
        joinSpace (pysplit (lowerStr text)) ∧
      (back_translate m text direction).forward_confidence = 0 ∧
      (back_translate m text direction).back_confidence = 0 ∧
      (back_translate m text direction).quality_metrics.similarity_score = 100 := by
  have hts_ne : pysplit (lowerStr text) ≠ [] := pysplit_lowerStr_ne_nil h2
  have htok_ne : ∀ t ∈ pysplit (lowerStr text), t ≠ [] :=
    fun t ht => ne_nil_of_mem_pysplit ht
  have htok_ns : ∀ t ∈ pysplit (lowerStr text), ∀ c ∈ t, isSpaceChar c = false :=
    fun t ht => nospace_of_mem_pysplit ht
  have hnorm := joinSpace_mem_nonspace htok_ne htok_ns hts_ne
  have hlow : lowerStr (joinSpace (pysplit (lowerStr text))) =
      joinSpace (pysplit (lowerStr text)) := lowerStr_joinSpace_pysplit text
  have hsplit : pysplit (joinSpace (pysplit (lowerStr text))) =
      pysplit (lowerStr text) := pysplit_joinSpace htok_ne htok_ns
  have hpick : ∀ d' : Str, ∀ w ∈ pysplit (lowerStr text),
      dlookup (pickDict m d') w = none := by
    intro d' w hw
    rw [pickDict]
    split_ifs
    · exact (hmiss w hw).1
    · exact (hmiss w hw).2
  have hguard : ¬ (text = [] ∨ trim text = []) := by
    simp [h1, h2]
  have hfwd : translate_single m text direction =
      { original := text, translated := joinSpace (pysplit (lowerStr text)),
        confidence := 0, direction := direction } :=
    translate_single_all_miss m text direction h1 h2 (hpick direction)
  have hmiss_norm : ∀ bd : Str,
      ∀ w ∈ pysplit (lowerStr (joinSpace (pysplit (lowerStr text)))),
        dlookup (pickDict m bd) w = none := by
    intro bd w hw
    rw [hlow, hsplit] at hw
    exact hpick bd w hw
  have hback : ∀ bd : Str, translate_single m (joinSpace (pysplit (lowerStr text))) bd =
      { original := joinSpace (pysplit (lowerStr text)),
        translated := joinSpace (pysplit (lowerStr text)),
        confidence := 0, direction := bd } := by
    intro bd
    have h := translate_single_all_miss m (joinSpace (pysplit (lowerStr text))) bd
      hnorm.1 hnorm.2 (hmiss_norm bd)
    rw [h, hlow, hsplit]
  have hfne : (pysplit (lowerStr text)).toFinset ≠ (∅ : Finset Str) := by
    intro hc
    rw [List.toFinset_eq_empty_iff] at hc
    exact hts_ne hc
  have hcard : (((pysplit (lowerStr text)).toFinset.card : ℚ)) ≠ 0 := by
    rw [Nat.cast_ne_zero, ← Nat.pos_iff_ne_zero, Finset.card_pos]
    exact Finset.nonempty_of_ne_empty hfne
  have hmetrics :
      (calculate_back_translation_score text
        (joinSpace (pysplit (lowerStr text)))).similarity_score = 100 := by
    simp only [calculate_back_translation_score, hlow, hsplit]
    rw [if_neg hfne]
    simp only [Finset.inter_self]
    rw [div_self hcard, one_mul, round2_hundred]
  simp only [back_translate, if_neg hguard, hfwd, hback]
  exact ⟨trivial, trivial, trivial, trivial, hmetrics⟩

/-- Witness for C7: the empty model and the text "xyz abc". -/
theorem untranslatable_roundtrip_witness :
    str "xyz abc" ≠ [] ∧ trim (str "xyz abc") ≠ [] ∧
      (∀ w ∈ pysplit (lowerStr (str "xyz abc")),
        dlookup emptyModel.english_to_igala w = none ∧
          dlookup emptyModel.igala_to_english w = none) ∧
      ((back_translate emptyModel (str "xyz abc") (str "en_to_ig")).forward_translation =
          joinSpace (pysplit (lowerStr (str "xyz abc"))) ∧
        (back_translate emptyModel (str "xyz abc") (str "en_to_ig")).back_translation =
          joinSpace (pysplit (lowerStr (str "xyz abc"))) ∧
        (back_translate emptyModel (str "xyz abc") (str "en_to_ig")).forward_confidence = 0 ∧
        (back_translate emptyModel (str "xyz abc") (str "en_to_ig")).back_confidence = 0 ∧
        (back_translate emptyModel (str "xyz abc")
            (str "en_to_ig")).quality_metrics.similarity_score = 100) :=
  ⟨by decide, by decide, by decide,
    untranslatable_roundtrip emptyModel (str "xyz abc") (str "en_to_ig")
      (by decide) (by decide) (by decide)⟩

/-- A model whose inverse dictionary has a key with an upper-case letter
(the Igala side keeps its original casing through preprocessing). -/
def caseModel : TranslationModel :=
  { english_to_igala := [], igala_to_english := [(str "Abc", str "x")] }

/-- C8 counterexample: "Abc" is an inverse-dictionary key whose lower-cased
form starts with the lower-cased partial "AB", yet `get_word_suggestions`
returns the empty list: the source compares `word.startswith(partial.lower())`
without lower-casing the key, so the match is case-sensitive on the key. -/
theorem get_word_suggestions_case_counterexample :
    str "Abc" ∈ dkeys caseModel.igala_to_english ∧
      (lowerStr (str "AB")).isPrefixOf (lowerStr (str "Abc")) = true ∧
      get_word_suggestions caseModel (str "AB") (str "igala") 5 = [] ∧
      ([] : List Str) ≠ [str "Abc"] := by
  refine ⟨by decide, by decide, ?_, by decide⟩
  simp only [get_word_suggestions]
  rw [if_neg (by decide : ¬ str "igala" = str "english")]
  rw [show (dkeys caseModel.igala_to_english).filter
      (fun word => (lowerStr (str "AB")).isPrefixOf word) = [] from by decide]
  simp [List.mergeSort]

/-- C8 (amended): `get_word_suggestions` selects the forward key list when the
language is "english" and the inverse key list otherwise, keeps exactly the
keys that start — case-sensitively — with the lower-cased partial word, sorts
them lexicographically ascending by code point, and truncates to the first
`limit` entries. (Because English keys are stored lower-cased, the
case-sensitive comparison coincides with the claim on the forward keys, but
inverse keys retain their casing and are matched case-sensitively.) -/
theorem get_word_suggestions_spec (m : TranslationModel) (pword language : Str)
    (limit : ℕ) :
    get_word_suggestions m pword language limit =
        (((if language = str "english" then dkeys m.english_to_igala
            else dkeys m.igala_to_english).filter
          (fun w => (lowerStr pword).isPrefixOf w)).mergeSort leStr).take limit ∧
      (get_word_suggestions m pword language limit).length ≤ limit ∧
      List.Pairwise (fun a b => leStr a b = true)
        (get_word_suggestions m pword language limit) ∧
      ∀ w ∈ get_word_suggestions m pword language limit,
        (w ∈ (if language = str "english" then dkeys m.english_to_igala
            else dkeys m.igala_to_english)) ∧
          (lowerStr pword).isPrefixOf w = true := by
  refine ⟨rfl, ?_, ?_, ?_⟩
  · simp only [get_word_suggestions]
    exact List.length_take_le _ _
  · simp only [get_word_suggestions]
    exact List.Pairwise.sublist (List.take_sublist _ _)
      (List.sorted_mergeSort leStr_trans leStr_total _)
  · intro w hw
    simp only [get_word_suggestions] at hw
    have hw2 := List.mem_of_mem_take hw
    rw [List.mem_mergeSort] at hw2
    exact ⟨(List.mem_filter.1 hw2).1, (List.mem_filter.1 hw2).2⟩

/-- C10: in the dictionaries built at construction time, following any inverse
entry back through the forward mapping returns the starting key: if the
inverse maps w to k then the forward mapping maps k to w. -/
theorem inverse_forward_roundtrip (rows : List (Str × Str)) (w k : Str)
    (h : dlookup (build_dictionaries (preprocess_data rows)).2 w = some k) :
    dlookup (build_dictionaries (preprocess_data rows)).1 k = some w := by
  simp only [build_dictionaries] at h ⊢
  have huniq : UniqKeys ((preprocess_data rows).foldl
      (fun d r => dinsert d r.1 r.2) []) :=
    uniqKeys_foldl_dinsert (fun r : Str × Str => r.1) (fun r : Str × Str => r.2) _ [] List.Pairwise.nil
  have hmem := mem_of_dlookup_eq_some h
  rcases mem_foldl_dinsert (fun r : Str × Str => r.2) (fun r : Str × Str => r.1) _ [] (w, k) hmem with
    h0 | ⟨r, hr, heq⟩
  · simp at h0
  · injection heq with hw hk
    have hrkw : (k, w) ∈ (preprocess_data rows).foldl
        (fun d r => dinsert d r.1 r.2) [] := by
      rw [hk, hw]
      simpa using hr
    exact dlookup_eq_some_of_mem_uniq huniq hrkw

/-- Witness for C10: two English words mapping to the same Igala word; the
inverse keeps the last one, and the round trip returns it. -/
theorem inverse_forward_roundtrip_witness :
    dlookup (build_dictionaries (preprocess_data
        [(str "a", str "x"), (str "b", str "x")])).2 (str "x") = some (str "b") ∧
      dlookup (build_dictionaries (preprocess_data
        [(str "a", str "x"), (str "b", str "x")])).1 (str "b") = some (str "x") :=
  ⟨by decide,
    inverse_forward_roundtrip [(str "a", str "x"), (str "b", str "x")]
      (str "x") (str "b") (by decide)⟩

end Claims

end IgalaApi
